import Mathlib

/-!
Verification of the SMC trading engine (trading-flask-bot).

Shallow embedding of the pattern-detection engine:
numeric candle fields are modelled as rationals, timestamps as integers,
Python dictionaries with fixed keys as structures, and Python exceptions
as Option / Except results.  The embedded functions mirror, statement by
statement, the source files `old scripts/smc_logic.py` and `smc_engine.py`.
-/

set_option autoImplicit false

/-- OHLCV candle (smc_engine.py `Candle`, smc_logic.py dataframe row).
The Python field `open` is a Lean keyword, embedded here as `openP`. -/
structure Candle where
  ts : Int
  openP : Rat
  high : Rat
  low : Rat
  close : Rat
  volume : Rat
deriving DecidableEq

/-- Concatenation of per-index blocks, the shape of a Python loop that
appends a short list of records at each index. -/
def concatBlocks {α : Type} (block : Nat → List α) : List Nat → List α
  | [] => []
  | i :: l => block i ++ concatBlocks block l

instance exceptDecEq {ε α : Type} [DecidableEq ε] [DecidableEq α] : DecidableEq (Except ε α)
  | Except.ok a, Except.ok b =>
      if h : a = b then Decidable.isTrue (by rw [h])
      else Decidable.isFalse (by intro hc; cases hc; exact h rfl)
  | Except.ok _, Except.error _ => Decidable.isFalse (by intro hc; cases hc)
  | Except.error _, Except.ok _ => Decidable.isFalse (by intro hc; cases hc)
  | Except.error e, Except.error e' =>
      if h : e = e' then Decidable.isTrue (by rw [h])
      else Decidable.isFalse (by intro hc; cases hc; exact h rfl)

namespace SmcLogic

/-- FVG record of smc_logic.py `detect_fvg_and_invalidate`
(dict with keys start_idx / type / top / bottom; the mutable `valid`
flag is represented by the invalidation predicate below). -/
structure Fvg where
  start_idx : Nat
  typ : String
  top : Rat
  bottom : Rat
deriving DecidableEq

/-- Inverse-FVG record (dict with keys orig_start / type / top / bottom /
converted_from). -/
structure InvFvg where
  orig_start : Nat
  typ : String
  top : Rat
  bottom : Rat
  converted_from : String
deriving DecidableEq

/-- One iteration of the detection loop of `detect_fvg_and_invalidate`:
b1 = df.iloc[i], b3 = df.iloc[i+2]; a bullish FVG when b1.low > b3.high
(band [b3.high, b1.low]) and a bearish FVG when b1.high < b3.low
(band [b1.high, b3.low]); the two conditions are independent ifs. -/
def fvgBlock (df : List Candle) (i : Nat) : List Fvg :=
  match df[i]?, df[i + 2]? with
  | some b1, some b3 =>
      (if b1.low > b3.high then [⟨i, "bullish", b1.low, b3.high⟩] else []) ++
      (if b1.high < b3.low then [⟨i, "bearish", b3.low, b1.high⟩] else [])
  | _, _ => []

/-- Detection phase of `detect_fvg_and_invalidate`: the loop
`for i in range(n - 2)` appending FVG records. -/
def detectFvgs (df : List Candle) : List Fvg :=
  concatBlocks (fvgBlock df) (List.range (df.length - 2))

/-- Invalidation test of `detect_fvg_and_invalidate`: scanning from
start_pos + 3, the first candle whose close lies inside
[bottom, top] (inclusive) invalidates the gap; `isSome` of the first
hit mirrors the `break` of the source loop. -/
def fvgInvalidated (df : List Candle) (f : Fvg) : Bool :=
  ((df.drop (f.start_idx + 3)).find? fun c =>
    decide (f.bottom ≤ c.close) && decide (c.close ≤ f.top)).isSome

/-- Direction flip used when converting an invalidated FVG
(`inv_type = 'bearish' if f['type'] == 'bullish' else 'bullish'`). -/
def flipDir (s : String) : String :=
  if s = "bullish" then "bearish" else "bullish"

/-- Inverse record appended for an invalidated FVG: flipped type,
identical band, converted_from the original type. -/
def invertFvg (f : Fvg) : InvFvg :=
  ⟨f.start_idx, flipDir f.typ, f.top, f.bottom, f.typ⟩

/-- Function detect_fvg_and_invalidate: returns (still-valid FVGs, inverse FVGs).
The source loop flips each invalidated record's valid flag and appends one
inverse record; the result is the filter of valid records and the in-order
list of inverse records. -/
def fvgAndInvalidate (df : List Candle) : List Fvg × List InvFvg :=
  let fvgs := detectFvgs df
  (fvgs.filter fun f => ¬ fvgInvalidated df f,
   fvgs.filterMap fun f => if fvgInvalidated df f then some (invertFvg f) else none)

/-- Order-block record of smc_logic.py `detect_order_blocks`
(dict with keys idx / type / high / low). -/
structure Ob where
  idx : Nat
  typ : String
  high : Rat
  low : Rat
deriving DecidableEq

/-- One iteration of the `detect_order_blocks` loop at index i:
prev = df.iloc[i-1], nxt = df.iloc[i+1]; bullish candidate when prev is
bearish and nxt closes bullish above prev's open, bearish the mirror;
two independent ifs. -/
def obBlock (df : List Candle) (i : Nat) : List Ob :=
  match df[i - 1]?, df[i + 1]? with
  | some prev, some nxt =>
      (if prev.close < prev.openP ∧ nxt.close > nxt.openP ∧ nxt.close > prev.openP
         then [⟨i - 1, "bullish", prev.high, prev.low⟩] else []) ++
      (if prev.close > prev.openP ∧ nxt.close < nxt.openP ∧ nxt.close < prev.openP
         then [⟨i - 1, "bearish", prev.high, prev.low⟩] else [])
  | _, _ => []

/-- smc_logic.py `detect_order_blocks`: loop `for i in range(1, len(df) - 1)`. -/
def detect_order_blocksL (df : List Candle) : List Ob :=
  concatBlocks (obBlock df) ((List.range (df.length - 1 - 1)).map (· + 1))

/-- Default candle used for the junk value of an out-of-range positional
access (never hit on the paths the source actually takes). -/
def dCandle : Candle := ⟨0, 0, 0, 0, 0, 0⟩

/-- Positional row access df.iloc[i] for 0 ≤ i < len. -/
def candleAt (df : List Candle) (i : Nat) : Candle := (df[i]?).getD dCandle

/-- Maximum of a pandas Series (nonempty on all source paths). -/
def listMax : List Rat → Rat
  | [] => 0
  | x :: xs => xs.foldl max x

/-- Minimum of a pandas Series (nonempty on all source paths). -/
def listMin : List Rat → Rat
  | [] => 0
  | x :: xs => xs.foldl min x

/-- Swing-high positions of `detect_swing_structure`: i in
range(left, n - right) is a swing high when df.high[i] equals the max of
the closed window [i-left, i+right].  The source returns timestamps; with
the per-series strictly increasing timestamps this is the positions list. -/
def swingHighIdx (df : List Candle) (left right : Nat) : List Nat :=
  (List.range' left (df.length - right - left)).filter fun i =>
    decide ((candleAt df i).high =
      listMax (((df.drop (i - left)).take (left + right + 1)).map fun c => c.high))

/-- Swing-low positions of `detect_swing_structure`, via the window minimum. -/
def swingLowIdx (df : List Candle) (left right : Nat) : List Nat :=
  (List.range' left (df.length - right - left)).filter fun i =>
    decide ((candleAt df i).low =
      listMin (((df.drop (i - left)).take (left + right + 1)).map fun c => c.low))

/-- Recursive tail of pandas ewm(span, adjust=False).mean():
e_t = a * x_t + (1 - a) * e_(t-1). -/
def emaGo (a : Rat) (prev : Rat) : List Rat → List Rat
  | [] => []
  | x :: rest =>
      let e := a * x + (1 - a) * prev
      e :: emaGo a e rest

/-- pandas ewm(span, adjust=False).mean(): e_0 = x_0, a = 2 / (span + 1). -/
def emaList (span : Nat) : List Rat → List Rat
  | [] => []
  | x :: rest => x :: emaGo (2 / ((span : Rat) + 1)) x rest

/-- Close column of the evaluated window. -/
def closes (df : List Candle) : List Rat := df.map fun c => c.close

/-- ema(closes, 8).iloc[-1]. -/
def maShort (df : List Candle) : Rat := (emaList 8 (closes df)).getLastD 0

/-- ema(closes, 34).iloc[-1]. -/
def maLong (df : List Candle) : Rat := (emaList 34 (closes df)).getLastD 0

/-- slope = (ma_short - ma_long) / ma_long. -/
def slopeOf (df : List Candle) : Rat := (maShort df - maLong df) / maLong df

/-- MA-slope contribution: +-25 when |slope| exceeds 0.0005. -/
def cSlope (df : List Candle) : Int :=
  if slopeOf df > 5 / 10000 then 25
  else if slopeOf df < -(5 / 10000) then -25
  else 0

/-- Python negative positional access series.iloc[k]; out of range gives a
junk 0 (never hit: the source only reaches i-1 when the two EMAs differ at
position i, which fails at position 0, the only place i-1 could underflow). -/
def ilocD (xs : List Rat) (k : Int) : Rat :=
  if k < 0 then
    (if (0 : Int) ≤ (xs.length : Int) + k then (xs[((xs.length : Int) + k).toNat]?).getD 0 else 0)
  else (xs[k.toNat]?).getD 0

/-- Crossover scan of evaluate_single_tf over i in range(-recent, -1),
with Python short-circuit evaluation of the two compound conditions. -/
def crossScan (es el : List Rat) : List Int → Option String
  | [] => none
  | i :: rest =>
      if ilocD es i > ilocD el i then
        if ilocD es (i - 1) ≤ ilocD el (i - 1) then some "bull" else crossScan es el rest
      else if ilocD es i < ilocD el i then
        if ilocD es (i - 1) ≥ ilocD el (i - 1) then some "bear" else crossScan es el rest
      else crossScan es el rest

/-- Index list of range(-recent, -1) with recent = min(len, 10). -/
def crossIdxs (len : Nat) : List Int :=
  (List.range (min len 10 - 1)).map fun j => (j : Int) - (min len 10 : Nat)

/-- MA-crossover contribution: +-20 for the most recent crossover. -/
def cCross (df : List Candle) : Int :=
  match crossScan (emaList 8 (closes df)) (emaList 34 (closes df)) (crossIdxs (closes df).length) with
  | some s => if s = "bull" then 20 else if s = "bear" then -20 else 0
  | none => 0

/-- closes.iloc[-1]. -/
def currentClose (df : List Candle) : Rat := (closes df).getLastD 0

/-- Price vs long MA contribution: +15 above, else -15. -/
def cPrice (df : List Candle) : Int :=
  if currentClose df > maLong df then 15 else -15

/-- Count of strictly positive one-step close differences
((closes.diff() > 0).sum(); the first diff is NaN, counted False). -/
def upMoves : List Rat → Nat
  | [] => 0
  | [_] => 0
  | a :: b :: rest => (if a < b then 1 else 0) + upMoves (b :: rest)

/-- bull_pct = up-move count / max(1, len) * 100. -/
def bullPct (df : List Candle) : Rat :=
  (upMoves (closes df) : Rat) / ((max 1 (closes df).length : Nat) : Rat) * 100

/-- Bullish-candle-ratio contribution: +10 above 60, -10 below 40. -/
def cBull (df : List Candle) : Int :=
  if bullPct df > 60 then 10 else if bullPct df < 40 then -10 else 0

/-- Market-structure signal of evaluate_single_tf: the source only ever
assigns 'bull' (from a higher high, or a higher low when still unset);
the 'bear' case is dead code there. -/
def mssSignal (df : List Candle) : Option String :=
  let hs := swingHighIdx df 2 2
  let ls := swingLowIdx df 2 2
  let m1 : Option String :=
    if 2 ≤ hs.length ∧
        (candleAt df (hs.getLastD 0)).high > (candleAt df ((hs[hs.length - 2]?).getD 0)).high
      then some "bull" else none
  match m1 with
  | some s => some s
  | none =>
      if 2 ≤ ls.length ∧
          (candleAt df (ls.getLastD 0)).low > (candleAt df ((ls[ls.length - 2]?).getD 0)).low
        then some "bull" else none

/-- Swing-structure contribution: +-15 by mss_signal. -/
def cMss (df : List Candle) : Int :=
  match mssSignal df with
  | some s => if s = "bull" then 15 else if s = "bear" then -15 else 0
  | none => 0

/-- poi_support: count of still-valid bullish FVGs and bullish OBs whose
band contains the current close. -/
def poiSupport (df : List Candle) : Nat :=
  ((fvgAndInvalidate df).1.filter fun f =>
      f.typ == "bullish" && decide (f.bottom ≤ currentClose df) && decide (currentClose df ≤ f.top)).length
  + ((detect_order_blocksL df).filter fun ob =>
      ob.typ == "bullish" && decide (ob.low ≤ currentClose df) && decide (currentClose df ≤ ob.high)).length

/-- POI-support contribution: +15 when any supportive POI exists (never negative). -/
def cPoi (df : List Candle) : Int :=
  if 0 < poiSupport df then 15 else 0

/-- Raw trend score of evaluate_single_tf: sum of the six weighted
contributions over the evaluated window. -/
def scoreOf (df : List Candle) : Int :=
  cSlope df + cCross df + cPrice df + cBull df + cMss df + cPoi df

/-- sum(weights.values()) of evaluate_single_tf:
25 + 20 + 15 + 10 + 15 + 15 = 100. -/
def maxScoreW : Int := 25 + 20 + 15 + 10 + 15 + 15

/-- Python round(): round half to even. -/
def pyRound (q : Rat) : Int :=
  if q - ⌊q⌋ < 1 / 2 then ⌊q⌋
  else if 1 / 2 < q - ⌊q⌋ then ⌊q⌋ + 1
  else if ⌊q⌋ % 2 = 0 then ⌊q⌋ else ⌊q⌋ + 1

/-- Per-timeframe result of evaluate_single_tf (trend label and
confidence; the reasons and details entries carry no further state). -/
structure TrendRow where
  trend : String
  confidence : Int
deriving DecidableEq

/-- df.tail(lookback): the last `lookback` rows. -/
def tfWindow (df : List Candle) (lookback : Nat) : List Candle :=
  df.drop (df.length - lookback)

/-- smc_logic.py `evaluate_single_tf`: insufficient data (fewer than 10
rows) returns Sideways / 0; an empty tail window makes ema(...).iloc[-1]
raise IndexError, modelled as `none`; otherwise confidence is
round(norm * 100) with norm = (score + max_score) / (2 * max_score). -/
def evaluate_single_tf (df : List Candle) (lookback : Nat) : Option TrendRow :=
  if df.length < 10 then some ⟨"Sideways", 0⟩
  else
    let df2 := tfWindow df lookback
    if df2.isEmpty then none
    else
      let score := scoreOf df2
      let conf := pyRound (((score : Rat) + (maxScoreW : Rat)) / (2 * (maxScoreW : Rat)) * 100)
      let trend :=
        if 60 ≤ conf ∧ 0 < score then "Bull"
        else if 60 ≤ conf ∧ score < 0 then "Bear"
        else "Sideways"
      some ⟨trend, conf⟩

/-- Raw score of the evaluated window df.tail(lookback). -/
def tfScore (df : List Candle) (lookback : Nat) : Int := scoreOf (tfWindow df lookback)

end SmcLogic

namespace SmcEngine

/-- smc_engine.py `POI`.  The Python field `end` is a Lean keyword,
embedded as `endP`.  The created_at field (a wall-clock default) carries
no engine semantics and is omitted. -/
structure POI where
  poi_type : String
  direction : String
  start : Rat
  endP : Rat
  validated : Bool
deriving DecidableEq

/-- smc_engine.py `Signal`.  The confluence dict has the four fixed keys
fvg / order_block / breaker_block / liquidity_sweep, embedded as the four
conf fields. -/
structure Signal where
  symbol : String
  direction : String
  entry : Rat
  stop : Rat
  target : Rat
  rr : Rat
  conf_fvg : Bool
  conf_ob : Bool
  conf_bb : Bool
  conf_liq : Bool
  confluence_score : Int
deriving DecidableEq

/-- Raw candle payload handed to add_candles.  A `none` field models a
missing or non-numeric entry (where float()/fromisoformat raises);
volume is optional in the source (c.get('volume', 0)). -/
structure RawCandle where
  time : Option Int
  openR : Option Rat
  highR : Option Rat
  lowR : Option Rat
  closeR : Option Rat
  volumeR : Option Rat
deriving DecidableEq

/-- Candle construction inside add_candles: every required field must
parse; a missing volume defaults to 0. -/
def parseCandle (c : RawCandle) : Option Candle :=
  match c.time, c.openR, c.highR, c.lowR, c.closeR with
  | some t, some o, some h, some l, some cl => some ⟨t, o, h, l, cl, c.volumeR.getD 0⟩
  | _, _, _, _, _ => none

/-- smc_engine.py `add_candles` for one timeframe's series: each payload
is parsed and appended in order with no timestamp check; the first
malformed payload raises out of the loop (flag true), abandoning the rest
of the batch. -/
def add_candles : List RawCandle → List Candle → List Candle × Bool
  | [], series => (series, false)
  | c :: rest, series =>
      match parseCandle c with
      | some cd => add_candles rest (series ++ [cd])
      | none => (series, true)

/-- smc_engine.py `detect_fvgs`: inspects only the last three candles of
the series; l1.low > l2.high appends a bearish FVG with band
[l2.high, l1.low], elif l1.high < l2.low appends a bullish FVG with band
[l1.high, l2.low]. -/
def detect_fvgs (candles : List Candle) (pois : List POI) : List POI :=
  if candles.length < 3 then pois
  else
    match candles.drop (candles.length - 3) with
    | _ :: l1 :: l2 :: _ =>
        if l1.low > l2.high then pois ++ [⟨"FVG", "bearish", l2.high, l1.low, true⟩]
        else if l1.high < l2.low then pois ++ [⟨"FVG", "bullish", l1.high, l2.low, true⟩]
        else pois
    | _ => pois

/-- smc_engine.py `detect_liquidity_pools`: equal highs / equal lows of
the last three candles within 0.0003, two independent ifs. -/
def detect_liquidity_pools (candles : List Candle) (pois : List POI) : List POI :=
  if candles.length < 3 then pois
  else
    match candles.drop (candles.length - 3) with
    | l0 :: _ :: l2 :: _ =>
        (pois ++ (if |l0.high - l2.high| < 3 / 10000
                    then [⟨"Liquidity", "bearish", l0.high, l2.high, true⟩] else []))
          ++ (if |l0.low - l2.low| < 3 / 10000
                then [⟨"Liquidity", "bullish", l0.low, l2.low, true⟩] else [])
    | _ => pois

/-- smc_engine.py `detect_order_blocks`: prev = candles[-3],
last = candles[-2]; a bearish prev followed by a bullish last appends a
bullish OB with band [prev.open, prev.close] (note: open > close there),
elif the mirror appends a bearish OB with band [prev.close, prev.open]. -/
def detect_order_blocks (candles : List Candle) (pois : List POI) : List POI :=
  if candles.length < 5 then pois
  else
    let last_candle := SmcLogic.candleAt candles (candles.length - 2)
    let prev_candle := SmcLogic.candleAt candles (candles.length - 3)
    if prev_candle.close < prev_candle.openP ∧ last_candle.close > last_candle.openP then
      pois ++ [⟨"OB", "bullish", prev_candle.openP, prev_candle.close, true⟩]
    else if prev_candle.close > prev_candle.openP ∧ last_candle.close < last_candle.openP then
      pois ++ [⟨"OB", "bearish", prev_candle.close, prev_candle.openP, true⟩]
    else pois

/-- candles[-10:]: the window validate_fvgs scans for fills. -/
def lastTen (l : List Candle) : List Candle := l.drop (l.length - 10)

/-- Fill test of one candle against one FVG POI in validate_fvgs:
bullish gaps fill from below past start, bearish gaps from above past
end; the fill ratio must reach the threshold.  The first candle passing
this test triggers the invalidation (break). -/
def invCondition (t : Rat) (p : POI) (c : Candle) : Bool :=
  if p.direction = "bullish" then
    decide (c.low < p.start) && decide (t ≤ (p.start - c.low) / (p.endP - p.start))
  else if p.direction = "bearish" then
    decide (p.endP < c.high) && decide (t ≤ (c.high - p.endP) / (p.endP - p.start))
  else false

/-- Inverse POI appended on invalidation: same band, opposite direction,
validated. -/
def inversePoi (p : POI) : POI :=
  ⟨"FVG", if p.direction = "bullish" then "bearish" else "bullish", p.start, p.endP, true⟩

/-- Junk POI backing the total positional access inside the loop model
(never reached: the loop reads position i only when i is in range). -/
def dPoi : POI := ⟨"", "", 0, 0, false⟩

/-- smc_engine.py `validate_fvgs` body: `for poi in self.pois` iterates
the live list, so inverse POIs appended during the pass are themselves
visited; the loop is modelled by an index into the growing list with an
explicit fuel bound (the source can in fact loop forever when a gap and
its inverse keep invalidating each other; `none` is fuel exhaustion). -/
def validateFvgsLoop (recent : List Candle) (t : Rat) :
    Nat → List POI → Nat → Option (List POI)
  | 0, pois, i => if pois.length ≤ i then some pois else none
  | fuel + 1, pois, i =>
      if pois.length ≤ i then some pois
      else
        let p := pois.getD i dPoi
        if p.poi_type = "FVG" ∧ p.validated = true then
          match recent.find? (invCondition t p) with
          | some _ =>
              validateFvgsLoop recent t fuel
                (pois.set i { p with validated := false } ++ [inversePoi p]) (i + 1)
          | none => validateFvgsLoop recent t fuel pois (i + 1)
        else validateFvgsLoop recent t fuel pois (i + 1)

/-- smc_engine.py `validate_pois` (which only calls validate_fvgs) over
the primary-timeframe series. -/
def validate_pois (primary : List Candle) (t : Rat) (fuel : Nat) (pois : List POI) :
    Option (List POI) :=
  validateFvgsLoop (lastTen primary) t fuel pois 0

/-- Confluence entry: any POI of the given type and direction anywhere in
the list (the source does not test the validated flag here). -/
def anyPoi (pois : List POI) (ty d : String) : Bool :=
  pois.any fun p => p.poi_type == ty && p.direction == d

/-- Bool-to-count summand of sum(confluence.values()). -/
def bInt (b : Bool) : Int := if b then 1 else 0

/-- Signal construction of generate_signal for a triggering POI:
entry / stop from the band by direction, target at the fixed 1.5 reward
multiple, rr = |target - entry| / |entry - stop| (division junk 0 stands
where Python raises ZeroDivisionError; generate_signal guards that path),
confluence over the whole POI list and its count. -/
def buildSignal (sym : String) (pois : List POI) (p : POI) : Signal :=
  let entry := if p.direction = "bullish" then p.start else p.endP
  let stop := if p.direction = "bullish" then p.endP else p.start
  let target := if p.direction = "bullish" then entry + (entry - stop) * (3 / 2)
                else entry - (stop - entry) * (3 / 2)
  let cf := anyPoi pois "FVG" p.direction
  let co := anyPoi pois "OB" p.direction
  let cb := anyPoi pois "BB" p.direction
  let cl := anyPoi pois "Liquidity" p.direction
  { symbol := sym
    direction := if p.direction = "bullish" then "long" else "short"
    entry := entry
    stop := stop
    target := target
    rr := |target - entry| / |entry - stop|
    conf_fvg := cf
    conf_ob := co
    conf_bb := cb
    conf_liq := cl
    confluence_score := bInt cf + bInt co + bInt cb + bInt cl }

/-- POI filter of the generate_signal loop: validated and of kind
FVG / OB / BB. -/
def consideredPoi (p : POI) : Bool :=
  p.validated && (p.poi_type == "FVG" || p.poi_type == "OB" || p.poi_type == "BB")

/-- Scan of generate_signal over the POI list: the first considered POI
is built into a Signal (raising ZeroDivisionError, `Except.error`, when
entry = stop, i.e. on a degenerate band) and returned when its
confluence score reaches 2, otherwise the scan continues. -/
def signalScan (sym : String) (all : List POI) : List POI → Except Unit (Option Signal)
  | [] => Except.ok none
  | p :: rest =>
      if consideredPoi p then
        if p.start = p.endP then Except.error ()
        else if 2 ≤ (buildSignal sym all p).confluence_score then
          Except.ok (some (buildSignal sym all p))
        else signalScan sym all rest
      else signalScan sym all rest

/-- smc_engine.py `generate_signal`. -/
def generate_signal (sym : String) (pois : List POI) : Except Unit (Option Signal) :=
  signalScan sym pois pois

/-- Engine state touched by the operations under verification: the
per-timeframe candle store and the POI list (smc_engine.py `SMCEngine`). -/
structure EngineState where
  symbol : String
  candles : List (String × List Candle)
  pois : List POI
deriving DecidableEq

/-- generate_signal as a state-threading operation: the loop body of the
source reads self.pois and self.symbol and performs no assignment or
append, so the state is passed through every iteration unchanged. -/
def signalScanSt (all : List POI) : EngineState → List POI →
    EngineState × Except Unit (Option Signal)
  | e, [] => (e, Except.ok none)
  | e, p :: rest =>
      if consideredPoi p then
        if p.start = p.endP then (e, Except.error ())
        else if 2 ≤ (buildSignal e.symbol all p).confluence_score then
          (e, Except.ok (some (buildSignal e.symbol all p)))
        else signalScanSt all e rest
      else signalScanSt all e rest

/-- The generate_signal engine operation. -/
def generate_signal_op (e : EngineState) : EngineState × Except Unit (Option Signal) :=
  signalScanSt e.pois e e.pois

/-- Stopping predicate of the generate_signal scan: a considered POI at
which the loop either raises (degenerate band) or returns (score at least
2); POIs failing it are skipped and the scan continues. -/
def scanStop (sym : String) (all : List POI) (p : POI) : Bool :=
  consideredPoi p && (p.start == p.endP || decide (2 ≤ (buildSignal sym all p).confluence_score))

/-- A POI on which a validate_fvgs pass can no longer act: either it is
not a validated FVG, or no candle of the scanned window fills it. -/
def stablePoi (recent : List Candle) (t : Rat) (p : POI) : Prop :=
  p.poi_type = "FVG" ∧ p.validated = true → recent.find? (invCondition t p) = none

end SmcEngine

section Examples

open SmcLogic SmcEngine

/-- Four-candle series with one bullish FVG at index 0 (band [1, 2],
since candle0.low = 2 > candle2.high = 1) that candle 3 (close 3/2)
invalidates. -/
def exDf : List Candle :=
  [⟨0, 2, 3, 2, 5 / 2, 0⟩, ⟨1, 2, 2, 3 / 2, 2, 0⟩,
   ⟨2, 1, 1, 1 / 2, 1, 0⟩, ⟨3, 3 / 2, 3 / 2, 3 / 2, 3 / 2, 0⟩]

/-- Twelve constant candles: a well-formed scorer window on which every
component is forced (score -25, confidence 38). -/
def constWindow : List Candle := (List.range 12).map fun k => ⟨(k : Int), 1, 1, 1, 1, 0⟩

/-- A validated bullish FVG plus a validated bullish OB (spec scenario). -/
def scen1 : List POI := [⟨"FVG", "bullish", 1, 2, true⟩, ⟨"OB", "bullish", 3, 4, true⟩]

/-- The validated bullish FVG alone (spec scenario). -/
def scen2 : List POI := [⟨"FVG", "bullish", 1, 2, true⟩]

/-- The signal generate_signal returns on scen1. -/
def scen1sig : Signal :=
  ⟨"EURUSD", "long", 1, 2, -(1 / 2), 3 / 2, true, true, false, false, 2⟩

/-- A validated bullish FVG plus an INVALIDATED bullish OB: the confluence
map still reports order_block because the source never tests validated. -/
def c3pois : List POI := [⟨"FVG", "bullish", 1, 2, true⟩, ⟨"OB", "bullish", 0, 1, false⟩]

/-- The signal generate_signal returns on c3pois. -/
def c3sig : Signal :=
  ⟨"EURUSD", "long", 1, 2, -(1 / 2), 3 / 2, true, true, false, false, 2⟩

/-- First POI of the degenerate-band scenario: a validated FVG whose band
is a single price. -/
def c4poi1 : POI := ⟨"FVG", "bullish", 1, 1, true⟩

/-- Degenerate-band POI list: the first considered POI has entry = stop,
so generate_signal divides by zero. -/
def c4pois : List POI := [c4poi1, ⟨"OB", "bullish", 1, 1, true⟩]

/-- Primary-timeframe candle whose low fully fills the [1, 2] gap. -/
def prim1 : List Candle := [⟨0, 1, 3 / 2, 0, 1, 0⟩]

/-- One validated bullish FVG to be invalidated by prim1. -/
def pois1 : List POI := [⟨"FVG", "bullish", 1, 2, true⟩]

/-- POI list after one validate_pois pass over prim1 / pois1. -/
def valRes : List POI :=
  [⟨"FVG", "bullish", 1, 2, false⟩, ⟨"FVG", "bearish", 1, 2, true⟩]

/-- Five candles whose third is bearish (open 2, close 1) and fourth
bullish: detect_order_blocks appends a bullish OB with band start 2,
end 1. -/
def obCandles : List Candle :=
  [⟨0, 1, 1, 1, 1, 0⟩, ⟨1, 1, 1, 1, 1, 0⟩, ⟨2, 2, 2, 1, 1, 0⟩,
   ⟨3, 1, 2, 1, 2, 0⟩, ⟨4, 1, 1, 1, 1, 0⟩]

/-- The band-reversed OB POI detect_order_blocks creates on obCandles. -/
def obPoi : POI := ⟨"OB", "bullish", 2, 1, true⟩

/-- Well-formed raw candle with timestamp 5. -/
def rawT5 : RawCandle := ⟨some 5, some 1, some 1, some 1, some 1, some 0⟩

/-- The candle rawT5 parses to. -/
def candT5 : Candle := ⟨5, 1, 1, 1, 1, 0⟩

/-- A stored series whose last timestamp is already 5. -/
def seriesT5 : List Candle := [candT5]

/-- Well-formed raw candle with timestamp 1. -/
def rawA : RawCandle := ⟨some 1, some 1, some 1, some 1, some 1, some 0⟩

/-- Well-formed raw candle with timestamp 2. -/
def rawB : RawCandle := ⟨some 2, some 2, some 2, some 2, some 2, some 0⟩

/-- Malformed raw candle: the open field is missing. -/
def badRaw : RawCandle := ⟨some 2, none, some 1, some 1, some 1, none⟩

/-- The candle rawB parses to. -/
def candB : Candle := ⟨2, 2, 2, 2, 2, 0⟩

end Examples

section Theorems

open SmcLogic SmcEngine

attribute [local semireducible] Rat.mul Rat.add Rat.sub Rat.inv

lemma signalScanSt_fst (all : List POI) :
    ∀ (l : List POI) (e : EngineState), (signalScanSt all e l).1 = e := by
  intro l
  induction l with
  | nil => intro e; rfl
  | cons p rest ih =>
      intro e
      simp only [signalScanSt]
      split_ifs <;> first | rfl | exact ih e

/-- C10: generate_signal never mutates engine state: the candle series of
every timeframe and the POI list (validity flags included) are exactly as
before the call.  The scan is threaded through the state and returns it
unchanged at every iteration. -/
theorem C10_generate_signal_pure : ∀ e : EngineState, (generate_signal_op e).1 = e := by
  intro e
  exact signalScanSt_fst e.pois e.pois e

/-- C5 counterexample: a raw candle whose timestamp (5) is equal to (so
not greater than) the last stored timestamp is appended anyway and no
failure is reported, refuting the OutOfOrderCandle contract. -/
theorem C5_counterexample :
    add_candles [rawT5] seriesT5 = ([candT5, candT5], false) ∧
    parseCandle rawT5 = some candT5 ∧ candT5.ts ≤ candT5.ts := by
  decide

/-- C5 (amended): add_candles performs no timestamp-order check at all:
every well-formed candle of a batch is parsed and appended in batch
order, regardless of how its timestamp compares to the last stored one,
and no error is raised; out-of-order candles are silently accepted. -/
theorem C5_append_amended :
    ∀ (rs : List RawCandle) (series : List Candle),
      (∀ r ∈ rs, (parseCandle r).isSome = true) →
      add_candles rs series = (series ++ rs.filterMap parseCandle, false) := by
  intro rs
  induction rs with
  | nil => intro series _; simp [add_candles]
  | cons c rest ih =>
      intro series h
      obtain ⟨cd, hcd⟩ := Option.isSome_iff_exists.mp (h c (by simp))
      simp only [add_candles, hcd, List.filterMap_cons]
      rw [ih (series ++ [cd]) (fun r hr => h r (by simp [hr]))]
      simp [List.append_assoc]

/-- C5 witness: the amended statement instantiated on a batch holding one
candle whose timestamp ties the stored one: it is appended, no error. -/
theorem C5_witness :
    add_candles [rawT5] seriesT5 = (seriesT5 ++ [rawT5].filterMap parseCandle, false) :=
  C5_append_amended [rawT5] seriesT5 (by decide)

/-- C8 counterexample: in the batch [rawA, badRaw, rawB] the malformed
candle aborts the whole loop: rawA is appended, but rawB — well-formed
and positioned after the malformed one — is lost, refuting the
per-candle rejection contract. -/
theorem C8_counterexample :
    add_candles [rawA, badRaw, rawB] [] = ([⟨1, 1, 1, 1, 1, 0⟩], true) ∧
    parseCandle rawB = some candB ∧
    ((add_candles [rawA, badRaw, rawB] []).1.contains candB) = false := by
  decide

/-- C8 (amended): a batch is processed in order only up to the first
malformed candle: candles before it are validated and appended, the
malformed one and every candle after it are dropped, and the error
propagates to the caller (whole-tail failure rather than per-candle
rejection). -/
theorem C8_batch_amended :
    ∀ (good : List RawCandle) (bad : RawCandle) (rest : List RawCandle) (series : List Candle),
      (∀ r ∈ good, (parseCandle r).isSome = true) → parseCandle bad = none →
      add_candles (good ++ bad :: rest) series = (series ++ good.filterMap parseCandle, true) := by
  intro good
  induction good with
  | nil => intro bad rest series _ hbad; simp [add_candles, hbad]
  | cons c g ih =>
      intro bad rest series h hbad
      obtain ⟨cd, hcd⟩ := Option.isSome_iff_exists.mp (h c (by simp))
      simp only [List.cons_append, add_candles, hcd, List.filterMap_cons, List.append_eq]
      rw [ih bad rest (series ++ [cd]) (fun r hr => h r (by simp [hr])) hbad]
      simp [List.append_assoc]

/-- C8 witness: the amended statement instantiated on [rawA, badRaw,
rawB] from the empty series: only rawA survives and the error is
reported. -/
theorem C8_witness :
    add_candles ([rawA] ++ badRaw :: [rawB]) [] = ([] ++ [rawA].filterMap parseCandle, true) :=
  C8_batch_amended [rawA] badRaw [rawB] [] (by decide) (by decide)

lemma getD_mem_of_lt (l : List POI) (i : Nat) (h : i < l.length) : l.getD i dPoi ∈ l := by
  rw [List.getD_eq_getElem l dPoi h]
  exact List.getElem_mem h

lemma validateLoop_band (recent : List Candle) (t : Rat) :
    ∀ (fuel : Nat) (pois : List POI) (i : Nat) (out : List POI),
      validateFvgsLoop recent t fuel pois i = some out →
      (∀ p ∈ pois, p.start ≤ p.endP) → ∀ p ∈ out, p.start ≤ p.endP := by
  intro fuel
  induction fuel with
  | zero =>
      intro pois i out hrun hband
      rw [validateFvgsLoop] at hrun
      split at hrun
      · cases hrun; exact hband
      · exact absurd hrun (by simp)
  | succ fuel ih =>
      intro pois i out hrun hband
      simp only [validateFvgsLoop] at hrun
      split at hrun
      · cases hrun; exact hband
      · rename_i hlen
        split at hrun
        · split at hrun
          · refine ih _ _ _ hrun ?_
            intro q hq
            rcases List.mem_append.1 hq with hq | hq
            · rcases List.mem_or_eq_of_mem_set hq with hq | hq
              · exact hband q hq
              · subst hq
                simpa using hband _ (getD_mem_of_lt pois i (by omega))
            · simp only [List.mem_singleton] at hq
              subst hq
              simpa [inversePoi] using hband _ (getD_mem_of_lt pois i (by omega))
          · exact ih _ _ _ hrun hband
        · exact ih _ _ _ hrun hband

/-- C9 counterexample: on obCandles, detect_order_blocks creates the POI
("OB", bullish, start 2, end 1): the band [prev.open, prev.close] of a
bearish prev candle is always reversed, so start ≤ end fails. -/
theorem C9_counterexample :
    detect_order_blocks obCandles [] = [obPoi] ∧ ¬ obPoi.start ≤ obPoi.endP := by
  decide

/-- C9 (amended): the band invariant start ≤ end holds for the POIs the
FVG pipeline creates — every POI appended by detect_fvgs has a strictly
ordered band, and validate_pois (flag flips plus same-band inverse POIs)
preserves bands — but not for the engine in general: OB POIs always carry
a reversed band and Liquidity POIs may (see the counterexample). -/
theorem C9_band_amended :
    (∀ (candles : List Candle) (pois : List POI) (p : POI),
        p ∈ detect_fvgs candles pois → p ∈ pois ∨ p.start < p.endP) ∧
    (∀ (recent : List Candle) (t : Rat) (fuel : Nat) (pois : List POI) (out : List POI),
        validateFvgsLoop recent t fuel pois 0 = some out →
        (∀ p ∈ pois, p.start ≤ p.endP) → ∀ p ∈ out, p.start ≤ p.endP) := by
  constructor
  · intro candles pois p hp
    unfold detect_fvgs at hp
    split at hp
    · exact Or.inl hp
    · split at hp
      · rename_i l1 l2 _
        split at hp
        · rcases List.mem_append.1 hp with h | h
          · exact Or.inl h
          · simp only [List.mem_singleton] at h
            subst h
            rename_i hgt
            exact Or.inr hgt
        · split at hp
          · rcases List.mem_append.1 hp with h | h
            · exact Or.inl h
            · simp only [List.mem_singleton] at h
              subst h
              rename_i hlt
              exact Or.inr hlt
          · exact Or.inl hp
      · exact Or.inl hp
  · intro recent t fuel pois out hrun hband
    exact validateLoop_band recent t fuel pois 0 out hrun hband

/-- C9 witness: the amended statement instantiated: the FVG part on a
series producing a bullish FVG POI, the validation part on the concrete
one-pass run over prim1 / pois1. -/
theorem C9_witness :
    ((⟨"FVG", "bullish", 1, 3 / 2, true⟩ : POI) ∈ pois1 ∨ (1 : Rat) < 3 / 2) ∧
    (∀ p ∈ valRes, p.start ≤ p.endP) := by
  constructor
  · refine C9_band_amended.1 exDf pois1 ⟨"FVG", "bullish", 1, 3 / 2, true⟩ ?_
    rw [show detect_fvgs exDf pois1 = pois1 ++ [⟨"FVG", "bullish", 1, 3 / 2, true⟩] from by decide]
    simp
  · exact C9_band_amended.2 (lastTen prim1) (1 / 2) 5 pois1 valRes (by decide) (by decide)

lemma getD_append_left (l l' : List POI) (j : Nat) (h : j < l.length) :
    (l ++ l').getD j dPoi = l.getD j dPoi := by
  rw [List.getD_eq_getElem (l ++ l') dPoi (by simp; omega), List.getD_eq_getElem l dPoi h]
  exact List.getElem_append_left h

lemma getD_set_ne (l : List POI) (i j : Nat) (p : POI) (hne : i ≠ j) (h : j < l.length) :
    (l.set i p).getD j dPoi = l.getD j dPoi := by
  rw [List.getD_eq_getElem (l.set i p) dPoi (by simpa using h), List.getD_eq_getElem l dPoi h]
  exact List.getElem_set_ne hne (by simpa using h)

lemma getD_set_self (l : List POI) (i : Nat) (p : POI) (h : i < l.length) :
    (l.set i p).getD i dPoi = p := by
  rw [List.getD_eq_getElem (l.set i p) dPoi (by simpa using h)]
  exact List.getElem_set_self (by simpa using h)

lemma stable_of_mem_getD (recent : List Candle) (t : Rat) (pois : List POI) (i : Nat)
    (hyp : ∀ j : Nat, j < i → j < pois.length → stablePoi recent t (pois.getD j dPoi))
    (hall : pois.length ≤ i) : ∀ p ∈ pois, stablePoi recent t p := by
  intro p hp
  obtain ⟨j, hj, hpj⟩ := List.mem_iff_getElem.1 hp
  have : pois.getD j dPoi = p := by rw [List.getD_eq_getElem pois dPoi hj]; exact hpj
  rw [← this]
  exact hyp j (by omega) hj

lemma validateLoop_stable (recent : List Candle) (t : Rat) :
    ∀ (fuel : Nat) (pois : List POI) (i : Nat) (out : List POI),
      validateFvgsLoop recent t fuel pois i = some out →
      (∀ j : Nat, j < i → j < pois.length → stablePoi recent t (pois.getD j dPoi)) →
      ∀ p ∈ out, stablePoi recent t p := by
  intro fuel
  induction fuel with
  | zero =>
      intro pois i out hrun hyp
      rw [validateFvgsLoop] at hrun
      split at hrun
      · cases hrun
        exact stable_of_mem_getD recent t pois i hyp (by assumption)
      · exact absurd hrun (by simp)
  | succ fuel ih =>
      intro pois i out hrun hyp
      simp only [validateFvgsLoop] at hrun
      split at hrun
      · cases hrun
        exact stable_of_mem_getD recent t pois i hyp (by assumption)
      · rename_i hlen
        split at hrun
        · rename_i hcond
          split at hrun
          · rename_i hfind
            refine ih _ _ _ hrun ?_
            intro j hj hjl
            by_cases hji : j = i
            · subst hji
              rw [getD_append_left _ _ j (by simpa using (by omega : j < pois.length)),
                getD_set_self pois j _ (by omega)]
              intro hc
              exact absurd hc.2 (by simp)
            · have hjp : j < pois.length := by omega
              rw [getD_append_left _ _ j (by simpa using hjp),
                getD_set_ne pois i j _ (fun h => hji h.symm) hjp]
              exact hyp j (by omega) hjp
          · rename_i hfind
            refine ih _ _ _ hrun ?_
            intro j hj hjl
            by_cases hji : j = i
            · subst hji
              intro _
              exact hfind
            · exact hyp j (by omega) hjl
        · rename_i hcond
          refine ih _ _ _ hrun ?_
          intro j hj hjl
          by_cases hji : j = i
          · subst hji
            intro hc
            exact absurd hc hcond
          · exact hyp j (by omega) hjl

lemma validateLoop_fixed (recent : List Candle) (t : Rat) :
    ∀ (fuel : Nat) (pois : List POI) (i : Nat),
      (∀ p ∈ pois, stablePoi recent t p) → pois.length ≤ i + fuel →
      validateFvgsLoop recent t fuel pois i = some pois := by
  intro fuel
  induction fuel with
  | zero =>
      intro pois i hst hle
      rw [validateFvgsLoop, if_pos (by omega)]
  | succ fuel ih =>
      intro pois i hst hle
      by_cases hlen : pois.length ≤ i
      · simp only [validateFvgsLoop]
        rw [if_pos hlen]
      · have hstp := hst _ (getD_mem_of_lt pois i (by omega))
        simp only [validateFvgsLoop]
        rw [if_neg hlen]
        by_cases hcond : (pois.getD i dPoi).poi_type = "FVG" ∧ (pois.getD i dPoi).validated = true
        · rw [if_pos hcond]
          rw [hstp hcond]
          exact ih pois (i + 1) hst (by omega)
        · rw [if_neg hcond]
          exact ih pois (i + 1) hst (by omega)

/-- C6: invalidation is idempotent: whenever a validate_pois pass
terminates, a second pass on its result (with no candles added in
between) flips no further validity flag and appends no further inverse
POI — the state it returns is exactly the input state, so no invalidated
gap ever gets a duplicate inverse. -/
theorem C6_validate_idempotent :
    ∀ (primary : List Candle) (t : Rat) (fuel : Nat) (pois out : List POI),
      validate_pois primary t fuel pois = some out →
      validate_pois primary t out.length out = some out := by
  intro primary t fuel pois out h
  have hst := validateLoop_stable (lastTen primary) t fuel pois 0 out h
    (fun j hj _ => absurd hj (Nat.not_lt_zero j))
  exact validateLoop_fixed (lastTen primary) t out.length out 0 hst (by omega)

/-- C6 witness: on prim1 / pois1 the first pass invalidates the bullish
gap and appends its bearish inverse (valRes); the theorem then yields the
unchanged second pass. -/
theorem C6_witness :
    validate_pois prim1 (1 / 2) 5 pois1 = some valRes ∧
    validate_pois prim1 (1 / 2) 2 valRes = some valRes := by
  constructor
  · decide
  · exact C6_validate_idempotent prim1 (1 / 2) 5 pois1 valRes (by decide)

lemma signalScan_ok_some (sym : String) (all : List POI) :
    ∀ (l : List POI) (s : Signal), signalScan sym all l = Except.ok (some s) →
      ∃ p, p ∈ l ∧ s = buildSignal sym all p := by
  intro l
  induction l with
  | nil =>
      intro s h
      exact absurd h (by simp [signalScan])
  | cons p rest ih =>
      intro s h
      simp only [signalScan] at h
      by_cases h1 : consideredPoi p = true
      · rw [if_pos h1] at h
        by_cases h2 : p.start = p.endP
        · rw [if_pos h2] at h
          exact absurd h (by simp)
        · rw [if_neg h2] at h
          by_cases h3 : 2 ≤ (buildSignal sym all p).confluence_score
          · rw [if_pos h3] at h
            simp only [Except.ok.injEq, Option.some.injEq] at h
            exact ⟨p, by simp, h.symm⟩
          · rw [if_neg h3] at h
            obtain ⟨q, hq, hs⟩ := ih s h
            exact ⟨q, by simp [hq], hs⟩
      · rw [if_neg h1] at h
        obtain ⟨q, hq, hs⟩ := ih s h
        exact ⟨q, by simp [hq], hs⟩

/-- C3 counterexample: on c3pois (validated bullish FVG plus INVALIDATED
bullish OB) generate_signal returns a Signal whose confluence map sets
order_block although no validated OB of that direction exists anywhere:
the source tests poi_type and direction but never the validated flag, so
the claim's "validated POI" reading is false. -/
theorem C3_confluence_counterexample :
    generate_signal "EURUSD" c3pois = Except.ok (some c3sig) ∧
    c3sig.conf_ob = true ∧
    (c3pois.filter fun p => p.poi_type == "OB" && p.direction == "bullish" && p.validated) = [] := by
  decide

/-- C3 (amended): for every Signal returned by generate_signal there is a
triggering POI in the list such that each confluence entry is true iff
some POI of that kind and of the triggering POI's direction — validated
or not — exists anywhere in the POI list, and confluence_score is the
count of true entries of the map (never generated independently). -/
theorem C3_confluence_amended :
    ∀ (sym : String) (pois : List POI) (s : Signal),
      generate_signal sym pois = Except.ok (some s) →
      ∃ p, p ∈ pois ∧
        s.conf_fvg = anyPoi pois "FVG" p.direction ∧
        s.conf_ob = anyPoi pois "OB" p.direction ∧
        s.conf_bb = anyPoi pois "BB" p.direction ∧
        s.conf_liq = anyPoi pois "Liquidity" p.direction ∧
        s.confluence_score = bInt s.conf_fvg + bInt s.conf_ob + bInt s.conf_bb + bInt s.conf_liq := by
  intro sym pois s h
  obtain ⟨p, hp, hs⟩ := signalScan_ok_some sym pois pois s h
  subst hs
  exact ⟨p, hp, rfl, rfl, rfl, rfl, rfl⟩

/-- C3 witness: the amended statement instantiated on c3pois and the
signal it returns. -/
theorem C3_witness :
    ∃ p, p ∈ c3pois ∧
      c3sig.conf_fvg = anyPoi c3pois "FVG" p.direction ∧
      c3sig.conf_ob = anyPoi c3pois "OB" p.direction ∧
      c3sig.conf_bb = anyPoi c3pois "BB" p.direction ∧
      c3sig.conf_liq = anyPoi c3pois "Liquidity" p.direction ∧
      c3sig.confluence_score =
        bInt c3sig.conf_fvg + bInt c3sig.conf_ob + bInt c3sig.conf_bb + bInt c3sig.conf_liq :=
  C3_confluence_amended "EURUSD" c3pois c3sig (by decide)

lemma signalScan_eq_find (sym : String) (all : List POI) :
    ∀ l : List POI,
      signalScan sym all l =
        match l.find? (scanStop sym all) with
        | none => Except.ok none
        | some p =>
            if p.start = p.endP then Except.error ()
            else Except.ok (some (buildSignal sym all p)) := by
  intro l
  induction l with
  | nil => rfl
  | cons p rest ih =>
      by_cases h1 : consideredPoi p = true
      · by_cases h2 : p.start = p.endP
        · have hs : scanStop sym all p = true := by
            simp [scanStop, h1, h2]
          rw [List.find?_cons_of_pos _ hs]
          simp [signalScan, h1, h2]
        · by_cases h3 : 2 ≤ (buildSignal sym all p).confluence_score
          · have hs : scanStop sym all p = true := by
              simp [scanStop, h1, h3]
            rw [List.find?_cons_of_pos _ hs]
            simp [signalScan, h1, h2, h3]
          · have hs : scanStop sym all p = false := by
              simp [scanStop, h2, h3]
            rw [List.find?_cons_of_neg _ (by simp [hs])]
            simp only [signalScan, if_pos h1, if_neg h2, if_neg h3]
            exact ih
      · have hcf : consideredPoi p = false := Bool.eq_false_iff.mpr h1
        have hs : scanStop sym all p = false := by
          simp [scanStop, hcf]
        rw [List.find?_cons_of_neg _ (by simp [hs])]
        simp only [signalScan, if_neg h1]
        exact ih

/-- C4 counterexample: on c4pois the first POI is validated, of kind FVG,
and its confluence score is 2, so the claim demands a returned Signal; but
its band is degenerate (start = end = 1), so the source raises
ZeroDivisionError computing rr before the score filter — no Signal is
returned. -/
theorem C4_signal_counterexample :
    generate_signal "EURUSD" c4pois = Except.error () ∧
    c4pois.head? = some c4poi1 ∧
    consideredPoi c4poi1 = true ∧
    (buildSignal "EURUSD" c4pois c4poi1).confluence_score = 2 := by
  decide

/-- C4 (amended): generate_signal scans the POI list in creation order and
stops at the first POI that is validated, of kind in FVG / OB / BB, and
either has a degenerate band (start = end) or reaches confluence score 2:
a degenerate band raises ZeroDivisionError (the rr division), otherwise
the Signal built from that POI is returned; with no such POI nothing is
returned, so at most one Signal per call.  On non-degenerate bands the
spec scenarios hold: a validated bullish FVG plus validated bullish OB
yield a returned Signal with confluence_score 2, the FVG alone yields
none. -/
theorem C4_signal_amended :
    (∀ (sym : String) (pois : List POI),
        generate_signal sym pois =
          match pois.find? (scanStop sym pois) with
          | none => Except.ok none
          | some p =>
              if p.start = p.endP then Except.error ()
              else Except.ok (some (buildSignal sym pois p))) ∧
    generate_signal "EURUSD" scen1 = Except.ok (some scen1sig) ∧
    scen1sig.confluence_score = 2 ∧
    generate_signal "EURUSD" scen2 = Except.ok none := by
  refine ⟨fun sym pois => signalScan_eq_find sym pois pois, ?_, ?_, ?_⟩
  · decide
  · decide
  · decide

lemma mem_concatBlocks {α : Type} (block : Nat → List α) :
    ∀ (l : List Nat) (a : α), a ∈ concatBlocks block l ↔ ∃ i, i ∈ l ∧ a ∈ block i := by
  intro l a
  induction l with
  | nil => simp [concatBlocks]
  | cons j l ih => simp [concatBlocks, ih, List.mem_append]

lemma concatBlocks_filter {α : Type} (block : Nat → List α) (P : α → Bool) (i : Nat)
    (htag : ∀ j a, a ∈ block j → P a = true → j = i) :
    ∀ l : List Nat, l.Nodup →
      (concatBlocks block l).filter P = if i ∈ l then (block i).filter P else [] := by
  intro l
  induction l with
  | nil => intro _; simp [concatBlocks]
  | cons j l ih =>
      intro hnd
      obtain ⟨hj, hnd'⟩ := List.nodup_cons.1 hnd
      simp only [concatBlocks, List.filter_append]
      by_cases hji : j = i
      · subst hji
        rw [ih hnd', if_neg hj, if_pos (by simp)]
        simp
      · have hbl : (block j).filter P = [] := by
          rw [List.filter_eq_nil_iff]
          intro a ha hPa
          exact hji (htag j a ha hPa)
        rw [hbl, ih hnd']
        by_cases hil : i ∈ l
        · rw [if_pos hil, if_pos (List.mem_cons_of_mem j hil)]
          simp
        · rw [if_neg hil, if_neg ?_]
          · simp
          · intro h
            rcases List.mem_cons.1 h with h | h
            · exact hji h.symm
            · exact hil h

lemma fvgBlock_start (df : List Candle) (j : Nat) (f : Fvg) (hf : f ∈ fvgBlock df j) :
    f.start_idx = j := by
  unfold fvgBlock at hf
  split at hf
  · rcases List.mem_append.1 hf with h | h <;>
      (split at h
       · simp only [List.mem_singleton] at h
         subst h
         rfl
       · exact absurd h (List.not_mem_nil f))
  · exact absurd hf (List.not_mem_nil f)

lemma fvgBlock_out (df : List Candle) (i : Nat) (h : df.length ≤ i + 2) :
    fvgBlock df i = [] := by
  unfold fvgBlock
  rw [List.getElem?_eq_none h]
  cases df[i]? <;> rfl

lemma detectFvgs_filter (df : List Candle) (i : Nat) (ty : String) :
    (detectFvgs df).filter (fun f => f.start_idx == i && f.typ == ty)
      = (fvgBlock df i).filter (fun f => f.start_idx == i && f.typ == ty) := by
  have htag : ∀ j a, a ∈ fvgBlock df j →
      (a.start_idx == i && a.typ == ty) = true → j = i := by
    intro j a ha hP
    have hja := fvgBlock_start df j a ha
    simp only [Bool.and_eq_true, beq_iff_eq] at hP
    omega
  unfold detectFvgs
  rw [concatBlocks_filter (fvgBlock df) _ i htag _ (List.nodup_range _)]
  by_cases h : i ∈ List.range (df.length - 2)
  · rw [if_pos h]
  · rw [if_neg h, fvgBlock_out df i (by simp [List.mem_range] at h; omega)]
    simp

lemma fvgBlock_eval (df : List Candle) (i : Nat) (b1 b3 : Candle)
    (h1 : df[i]? = some b1) (h3 : df[i + 2]? = some b3) :
    fvgBlock df i =
      (if b1.low > b3.high then [⟨i, "bullish", b1.low, b3.high⟩] else []) ++
      (if b1.high < b3.low then [⟨i, "bearish", b3.low, b1.high⟩] else []) := by
  unfold fvgBlock
  rw [h1, h3]

/-- C1: for every candle series and every consecutive triple (b1, b2, b3),
the detection loop of detect_fvg_and_invalidate reports exactly one
bullish gap for the triple with band [b3.high, b1.low] iff
b1.low > b3.high, and exactly one bearish gap with band [b1.high, b3.low]
iff b1.high < b3.low: the filter of the reported FVGs on (start index,
type) is exactly the corresponding singleton. -/
theorem C1_fvg_detection :
    ∀ (df : List Candle) (i : Nat) (b1 b3 : Candle),
      df[i]? = some b1 → df[i + 2]? = some b3 →
      ((detectFvgs df).filter (fun f => f.start_idx == i && f.typ == "bullish")
          = if b1.low > b3.high then [⟨i, "bullish", b1.low, b3.high⟩] else []) ∧
      ((detectFvgs df).filter (fun f => f.start_idx == i && f.typ == "bearish")
          = if b1.high < b3.low then [⟨i, "bearish", b3.low, b1.high⟩] else []) := by
  intro df i b1 b3 h1 h3
  constructor
  · rw [detectFvgs_filter df i "bullish", fvgBlock_eval df i b1 b3 h1 h3, List.filter_append]
    split_ifs <;> simp
  · rw [detectFvgs_filter df i "bearish", fvgBlock_eval df i b1 b3 h1 h3, List.filter_append]
    split_ifs <;> simp

/-- C1 witness: on exDf at index 0 (candle0.low = 2 > candle2.high = 1)
the detector reports exactly the bullish gap with band [1, 2] and no
bearish gap. -/
theorem C1_witness :
    ((detectFvgs exDf).filter (fun f => f.start_idx == 0 && f.typ == "bullish")
        = [⟨0, "bullish", 2, 1⟩]) ∧
    ((detectFvgs exDf).filter (fun f => f.start_idx == 0 && f.typ == "bearish") = []) := by
  have h := C1_fvg_detection exDf 0 ⟨0, 2, 3, 2, 5 / 2, 0⟩ ⟨2, 1, 1, 1 / 2, 1, 0⟩
    (by decide) (by decide)
  constructor
  · rw [h.1, if_pos (by decide)]
  · rw [h.2, if_neg (by decide)]

lemma fvgBlock_some (df : List Candle) (f : Fvg) (hbj : f ∈ fvgBlock df f.start_idx) :
    ∃ b1 b3, df[f.start_idx]? = some b1 ∧ df[f.start_idx + 2]? = some b3 := by
  cases hh1 : df[f.start_idx]? with
  | none =>
      unfold fvgBlock at hbj
      rw [hh1] at hbj
      exact absurd hbj (by simp)
  | some b1 =>
      cases hh3 : df[f.start_idx + 2]? with
      | none =>
          unfold fvgBlock at hbj
          rw [hh1, hh3] at hbj
          exact absurd hbj (by simp)
      | some b3 => exact ⟨b1, b3, rfl, rfl⟩

lemma detectFvgs_self_filter (df : List Candle) (f : Fvg) (hf : f ∈ detectFvgs df) :
    (detectFvgs df).filter (fun g => g.start_idx == f.start_idx && g.typ == f.typ) = [f] := by
  obtain ⟨j, hjl, hbj⟩ := (mem_concatBlocks (fvgBlock df) (List.range (df.length - 2)) f).1 hf
  have hstart := fvgBlock_start df j f hbj
  subst hstart
  obtain ⟨b1, b3, h1, h3⟩ := fvgBlock_some df f hbj
  rw [detectFvgs_filter df f.start_idx f.typ]
  rw [fvgBlock_eval df f.start_idx b1 b3 h1 h3] at hbj ⊢
  rw [List.filter_append]
  rcases List.mem_append.1 hbj with hm | hm
  · by_cases hA : b1.low > b3.high
    · rw [if_pos hA] at hm ⊢
      simp only [List.mem_singleton] at hm
      have ht : f.typ = "bullish" := by rw [hm]
      rw [← hm]
      have h2 : (List.filter (fun g => g.start_idx == f.start_idx && g.typ == f.typ)
          (if b1.high < b3.low
            then [(⟨f.start_idx, "bearish", b3.low, b1.high⟩ : Fvg)] else [])) = [] := by
        split_ifs <;> simp [ht]
      rw [h2]
      simp
    · rw [if_neg hA] at hm
      exact absurd hm (List.not_mem_nil f)
  · by_cases hB : b1.high < b3.low
    · rw [if_pos hB] at hm ⊢
      simp only [List.mem_singleton] at hm
      have ht : f.typ = "bearish" := by rw [hm]
      rw [← hm]
      have h2 : (List.filter (fun g => g.start_idx == f.start_idx && g.typ == f.typ)
          (if b1.low > b3.high
            then [(⟨f.start_idx, "bullish", b1.low, b3.high⟩ : Fvg)] else [])) = [] := by
        split_ifs <;> simp [ht]
      rw [h2]
      simp
    · rw [if_neg hB] at hm
      exact absurd hm (List.not_mem_nil f)

lemma filterMap_inv_filter (df : List Candle) (i : Nat) (ty : String) :
    ∀ l : List Fvg,
      ((l.filterMap fun f => if fvgInvalidated df f then some (invertFvg f) else none).filter
          fun g => g.orig_start == i && g.converted_from == ty)
        = ((l.filter fun f => f.start_idx == i && f.typ == ty).filterMap
            fun f => if fvgInvalidated df f then some (invertFvg f) else none) := by
  intro l
  induction l with
  | nil => rfl
  | cons a l ih =>
      simp only [List.filterMap_cons]
      by_cases hinv : fvgInvalidated df a = true
      · rw [if_pos hinv, List.filter_cons, List.filter_cons]
        by_cases hP : (a.start_idx == i && a.typ == ty) = true
        · rw [if_pos (show ((invertFvg a).orig_start == i
              && (invertFvg a).converted_from == ty) = true from hP), if_pos hP]
          rw [List.filterMap_cons, if_pos hinv, ih]
        · rw [if_neg (show ¬ ((invertFvg a).orig_start == i
              && (invertFvg a).converted_from == ty) = true from hP), if_neg hP]
          exact ih
      · rw [if_neg hinv, List.filter_cons]
        by_cases hP : (a.start_idx == i && a.typ == ty) = true
        · rw [if_pos hP, List.filterMap_cons, if_neg hinv]
          exact ih
        · rw [if_neg hP]
          exact ih

/-- C2: for every gap the detector records, invalidation scans forward
from 3 bars after the gap's start index; when some candle's close lies
inside the band (inclusive, the source stopping at the first such hit)
the gap is dropped from the valid list and exactly one inverse record —
opposite direction, identical band — exists for it; with no such candle
it stays valid and no inverse record for it exists. -/
theorem C2_fvg_invalidation :
    ∀ (df : List Candle) (f : SmcLogic.Fvg), f ∈ detectFvgs df →
      (fvgInvalidated df f = true →
          f ∉ (fvgAndInvalidate df).1 ∧
          (fvgAndInvalidate df).2.filter
              (fun g => g.orig_start == f.start_idx && g.converted_from == f.typ)
            = [⟨f.start_idx, flipDir f.typ, f.top, f.bottom, f.typ⟩]) ∧
      (fvgInvalidated df f = false →
          f ∈ (fvgAndInvalidate df).1 ∧
          (fvgAndInvalidate df).2.filter
              (fun g => g.orig_start == f.start_idx && g.converted_from == f.typ) = []) := by
  intro df f hf
  constructor
  · intro hinv
    constructor
    · simp only [fvgAndInvalidate, List.mem_filter]
      intro hc
      rw [hinv] at hc
      simpa using hc.2
    · show ((detectFvgs df).filterMap fun g =>
          if fvgInvalidated df g then some (invertFvg g) else none).filter
          (fun g => g.orig_start == f.start_idx && g.converted_from == f.typ) = _
      rw [filterMap_inv_filter df f.start_idx f.typ (detectFvgs df),
        detectFvgs_self_filter df f hf]
      simp [hinv, invertFvg]
  · intro hinv
    constructor
    · simp only [fvgAndInvalidate, List.mem_filter]
      exact ⟨hf, by simp [hinv]⟩
    · show ((detectFvgs df).filterMap fun g =>
          if fvgInvalidated df g then some (invertFvg g) else none).filter
          (fun g => g.orig_start == f.start_idx && g.converted_from == f.typ) = _
      rw [filterMap_inv_filter df f.start_idx f.typ (detectFvgs df),
        detectFvgs_self_filter df f hf]
      simp [hinv]

/-- C2 witness: on exDf the bullish gap (band [1, 2], start index 0) is
invalidated by candle 3 (close 3/2, the first close inside the band from
index 3 on): it leaves the valid list and exactly one bearish inverse
with the identical band is recorded. -/
theorem C2_witness :
    (⟨0, "bullish", 2, 1⟩ : SmcLogic.Fvg) ∉ (fvgAndInvalidate exDf).1 ∧
    (fvgAndInvalidate exDf).2.filter
        (fun g => g.orig_start == 0 && g.converted_from == "bullish")
      = [⟨0, "bearish", 2, 1, "bullish"⟩] := by
  have h := (C2_fvg_invalidation exDf ⟨0, "bullish", 2, 1⟩
    (by rw [show detectFvgs exDf = [⟨0, "bullish", 2, 1⟩] from by decide]; simp)).1 (by decide)
  exact h

lemma cSlope_bound (df : List Candle) : -25 ≤ cSlope df ∧ cSlope df ≤ 25 := by
  unfold cSlope
  split_ifs <;> omega

lemma cCross_bound (df : List Candle) : -20 ≤ cCross df ∧ cCross df ≤ 20 := by
  unfold cCross
  split
  · split_ifs <;> omega
  · omega

lemma cPrice_bound (df : List Candle) : -15 ≤ cPrice df ∧ cPrice df ≤ 15 := by
  unfold cPrice
  split_ifs <;> omega

lemma cBull_bound (df : List Candle) : -10 ≤ cBull df ∧ cBull df ≤ 10 := by
  unfold cBull
  split_ifs <;> omega

lemma cMss_bound (df : List Candle) : -15 ≤ cMss df ∧ cMss df ≤ 15 := by
  unfold cMss
  split
  · split_ifs <;> omega
  · omega

lemma cPoi_bound (df : List Candle) : 0 ≤ cPoi df ∧ cPoi df ≤ 15 := by
  unfold cPoi
  split_ifs <;> omega

lemma scoreOf_bound (df : List Candle) : -85 ≤ scoreOf df ∧ scoreOf df ≤ 100 := by
  have h1 := cSlope_bound df
  have h2 := cCross_bound df
  have h3 := cPrice_bound df
  have h4 := cBull_bound df
  have h5 := cMss_bound df
  have h6 := cPoi_bound df
  unfold scoreOf
  omega

lemma floor_le_pyRound (q : Rat) : ⌊q⌋ ≤ pyRound q := by
  unfold pyRound
  split_ifs <;> omega

lemma le_pyRound {q : Rat} {n : Int} (h : (n : Rat) ≤ q) : n ≤ pyRound q := by
  have h1 : n ≤ ⌊q⌋ := Int.le_floor.mpr h
  have h2 := floor_le_pyRound q
  omega

lemma pyRound_le {q : Rat} {n : Int} (h : q ≤ (n : Rat)) : pyRound q ≤ n := by
  have hf : ⌊q⌋ ≤ n := by
    have := Int.floor_le_floor h
    simpa using this
  unfold pyRound
  split_ifs with h1 h2
  · exact hf
  · by_contra hc
    push_neg at hc
    have hn : n ≤ ⌊q⌋ := by omega
    have h5 : (n : Rat) ≤ ((⌊q⌋ : Int) : Rat) := by exact_mod_cast hn
    linarith
  · exact hf
  · by_contra hc
    push_neg at hc
    have hn : n ≤ ⌊q⌋ := by omega
    have h5 : (n : Rat) ≤ ((⌊q⌋ : Int) : Rat) := by exact_mod_cast hn
    have h1' : (1 : Rat) / 2 ≤ q - ⌊q⌋ := not_lt.mp h1
    linarith

set_option maxRecDepth 40000 in
/-- C7 counterexample: on the 12-candle constant window the raw score is
-25 and the source returns confidence 38 = round((score + 100) / 2), while
the claim's formula round(100 x (score + 85) / 170) gives 35: the weights
sum to 100, not 85, so the claimed normalization is wrong. -/
theorem C7_confidence_counterexample :
    evaluate_single_tf constWindow 50 = some ⟨"Sideways", 38⟩ ∧
    tfScore constWindow 50 = -25 ∧
    pyRound (100 * ((tfScore constWindow 50 : Rat) + 85) / 170) = 35 ∧
    (⟨"Sideways", 38⟩ : SmcLogic.TrendRow).confidence ≠
      pyRound (100 * ((tfScore constWindow 50 : Rat) + 85) / 170) := by
  refine ⟨by decide, by decide, by decide, by decide⟩

/-- C7 (amended): for every window of at least 10 candles on which the
scorer returns (a nonempty evaluated tail), the raw score lies in
[-85, +100] — the six weights sum to 100 and the POI-support component
never subtracts — and the returned confidence equals
round(100 x (score + 100) / 200) (round half to even, Python round);
consequently 0 ≤ confidence ≤ 100 for all such inputs. -/
theorem C7_confidence_amended :
    ∀ (df : List Candle) (lookback : Nat) (row : SmcLogic.TrendRow),
      evaluate_single_tf df lookback = some row → 10 ≤ df.length →
      -85 ≤ tfScore df lookback ∧ tfScore df lookback ≤ 100 ∧
      row.confidence = pyRound (((tfScore df lookback : Rat) + 100) / 200 * 100) ∧
      0 ≤ row.confidence ∧ row.confidence ≤ 100 := by
  intro df lb row hev hlen
  have hb := scoreOf_bound (tfWindow df lb)
  have hsc : tfScore df lb = scoreOf (tfWindow df lb) := rfl
  unfold evaluate_single_tf at hev
  rw [if_neg (by omega)] at hev
  simp only [] at hev
  split at hev
  · exact absurd hev (by simp)
  · have hrow : row = ⟨if 60 ≤ pyRound (((scoreOf (tfWindow df lb) : Rat) + (maxScoreW : Rat))
          / (2 * (maxScoreW : Rat)) * 100) ∧ 0 < scoreOf (tfWindow df lb) then "Bull"
        else if 60 ≤ pyRound (((scoreOf (tfWindow df lb) : Rat) + (maxScoreW : Rat))
          / (2 * (maxScoreW : Rat)) * 100) ∧ scoreOf (tfWindow df lb) < 0 then "Bear"
        else "Sideways",
        pyRound (((scoreOf (tfWindow df lb) : Rat) + (maxScoreW : Rat))
          / (2 * (maxScoreW : Rat)) * 100)⟩ := by
      exact (Option.some.injEq _ _).mp hev |>.symm
    have hm : (maxScoreW : Rat) = 100 := by norm_num [maxScoreW]
    have hconf : row.confidence =
        pyRound (((tfScore df lb : Rat) + 100) / 200 * 100) := by
      rw [hrow]
      show pyRound _ = _
      rw [hsc, hm]
      norm_num
    refine ⟨by omega, by omega, hconf, ?_, ?_⟩
    · rw [hconf]
      refine le_pyRound ?_
      have hs : (-85 : Rat) ≤ ((tfScore df lb : Int) : Rat) := by
        exact_mod_cast hb.1
      push_cast
      nlinarith
    · rw [hconf]
      refine pyRound_le ?_
      have hs : ((tfScore df lb : Int) : Rat) ≤ 100 := by
        exact_mod_cast hb.2
      push_cast
      nlinarith

set_option maxRecDepth 40000 in
/-- C7 witness: the amended statement instantiated on the constant
12-candle window: score -25 within [-85, 100], confidence
38 = round((-25 + 100) / 2), inside [0, 100]. -/
theorem C7_witness :
    -85 ≤ tfScore constWindow 50 ∧ tfScore constWindow 50 ≤ 100 ∧
    (⟨"Sideways", 38⟩ : SmcLogic.TrendRow).confidence =
      pyRound (((tfScore constWindow 50 : Rat) + 100) / 200 * 100) ∧
    0 ≤ (⟨"Sideways", 38⟩ : SmcLogic.TrendRow).confidence ∧
    (⟨"Sideways", 38⟩ : SmcLogic.TrendRow).confidence ≤ 100 :=
  C7_confidence_amended constWindow 50 ⟨"Sideways", 38⟩ (by decide) (by decide)

end Theorems
